import Mathlib

/-!
Verification of the `python-recipes` repository against its specification.

The development shallowly embeds the functions named by the claims:

* `src/recipes/distance.py`: `group_dist_agg`, `distance_permute_test`,
  `distance_uniq_permute_test` (both as pure value-level functions and, for the
  frame/purity claim, as explicit state-passing functions over the mutable
  arrays of the Python code);
* `src/recipes/cooccur.py`: `overlap`, `cooccur`;
* `src/recipes/ngs.py`: `create_sample_table`, `sort_by_pattern`.

Numbers are modelled by `ℚ` (the Python code does exact-looking arithmetic on
floats; all claims here are order/count properties that hold over any ordered
field, so `ℚ` keeps everything decidable/executable).  The numpy random
generator `np.random.RandomState(random_state)` is abstracted by an explicit
stream parameter: for `distance_permute_test` a function giving the index
relabelling drawn at each iteration, and for `distance_uniq_permute_test` the
list of permutation indices produced by `rand.choice(range(1, counts),
permutations, replace=False)` (a duplicate-free list of indices in
`[1, counts - 1]`).  Fallible code returns `Except String`.
-/

/-- `np.median`: sort the data; for odd length take the middle element, for
even length average the two middle elements.  (For the empty list numpy
returns NaN; here the `getD` default `0` is never reached by any claim, which
all concern non-empty data.) -/
def npMedian (l : List ℚ) : ℚ :=
  let s := l.mergeSort (fun a b => decide (a ≤ b))
  if l.length % 2 = 1 then s.getD (l.length / 2) 0
  else (s.getD (l.length / 2 - 1) 0 + s.getD (l.length / 2) 0) / 2

/-- The `statistic` argument of `group_dist_agg`: the strings `'mean'` and
`'median'`, or a callable taking the array of distances to a number. -/
inductive Statistic where
  | mean : Statistic
  | median : Statistic
  | custom : (List ℚ → ℚ) → Statistic

/-- A square matrix: its shape `n` (`distance.shape[0]`) and its entries.
Entries are total functions; the claims only read entries at index pairs the
Python code would also accept. -/
structure SquareMat where
  n : Nat
  entry : Nat → Nat → ℚ

/-- `group_dist_agg(distance, pairs, statistic)` from `src/recipes/distance.py`
(lines 42-72): collect `distance[pair[0], pair[1]]` for each pair (the Python
code fills a `np.zeros(len(pairs))` array slot by slot; its final value is the
map below), then apply the statistic. -/
def group_dist_agg (entry : Nat → Nat → ℚ) (pairs : List (Nat × Nat))
    (statistic : Statistic) : ℚ :=
  let grp := pairs.map (fun pr => entry pr.1 pr.2)
  match statistic with
  | Statistic.mean => grp.sum / (grp.length : ℚ)
  | Statistic.median => npMedian grp
  | Statistic.custom f => f grp

/-- `[(idx_map[pair[0]], idx_map[pair[1]]) for pair in pairs]`: relabel both
ends of every pair through `idx_map`. -/
def relabel (idx_map : Nat → Nat) (pairs : List (Nat × Nat)) : List (Nat × Nat) :=
  pairs.map (fun pr => (idx_map pr.1, idx_map pr.2))

/-- The permuted difference computed in the loop bodies of both permutation
tests: `group_dist_agg(distance, group_2_rand, statistic) -
group_dist_agg(distance, group_1_rand, statistic)`. -/
def permDelta (entry : Nat → Nat → ℚ) (group_1 group_2 : List (Nat × Nat))
    (statistic : Statistic) (idx_map : Nat → Nat) : ℚ :=
  group_dist_agg entry (relabel idx_map group_2) statistic -
    group_dist_agg entry (relabel idx_map group_1) statistic

/-- `distance_permute_test` from `src/recipes/distance.py` (lines 75-126),
with the random stream abstracted: `rand k` is the index relabelling
`dict(zip(ids, rand.permutation(ids)))` drawn at iteration `k` (the numpy-array
branch, where `ids = np.arange(n)`).  Returns
`(p, delta, delta_rand)`. -/
def distance_permute_test (dm : SquareMat) (group_1 group_2 : List (Nat × Nat))
    (two_sided : Bool) (statistic : Statistic) (permutations : Nat)
    (rand : Nat → Nat → Nat) : ℚ × ℚ × List ℚ :=
  let grp1 := group_dist_agg dm.entry group_1 statistic
  let grp2 := group_dist_agg dm.entry group_2 statistic
  let delta := grp2 - grp1
  let delta_rand := (List.range permutations).map
    (fun k => permDelta dm.entry group_1 group_2 statistic (rand k))
  let p :=
    if two_sided then
      ((delta_rand.countP (fun d => decide (|delta| < |d|)) : ℚ)) / ((permutations : ℚ) + 1)
    else
      ((delta_rand.countP (fun d => decide (delta < d)) : ℚ)) / ((permutations : ℚ) + 1)
  (p, delta, delta_rand)

/-- Fuelled lexicographic permutation enumeration; with fuel `l.length` this is
exactly the order of `itertools.permutations(l)`: for each element `x` of `l`
in order, `x` prepended to every permutation of the rest. -/
def lexPermsAux : Nat → List Nat → List (List Nat)
  | 0, _ => [[]]
  | fuel + 1, l => l.flatMap (fun x => (lexPermsAux fuel (l.erase x)).map (fun q => x :: q))

/-- `itertools.permutations(l)` as a list, in enumeration order. -/
def lexPerms (l : List Nat) : List (List Nat) := lexPermsAux l.length l

/-- The index relabellings actually used by `distance_uniq_permute_test`
(lines 159-173 of `src/recipes/distance.py`): drop the identity permutation
(`next(perm_iter)`), enumerate the remainder from 1, and keep the permutations
whose enumeration index lands in `perm_set`. -/
def uniqPermuteRelabelings (n : Nat) (perm_set : List Nat) : List (List Nat) :=
  ((((lexPerms (List.range n)).drop 1).enum.filter
      (fun pr => decide ((pr.1 + 1) ∈ perm_set))).map Prod.snd)

/-- `distance_uniq_permute_test` from `src/recipes/distance.py` (lines
129-178).  `sel` abstracts `rand.choice(range(1, counts), permutations,
replace=False)`: the list of sampled permutation indices (duplicate-free,
each in `[1, counts - 1]`, of length `permutations`; the theorems state those
facts as hypotheses where they matter).  `delta_rand` is the
`np.zeros(permutations)` array filled in order at the selected permutations;
under the hypotheses above exactly `permutations` slots are filled. -/
def distance_uniq_permute_test (dm : SquareMat) (group_1 group_2 : List (Nat × Nat))
    (statistic : Statistic) (permutations : Nat) (sel : List Nat) :
    Except String (ℚ × ℚ × List ℚ) :=
  let counts := Nat.factorial dm.n
  if permutations > counts - 1 then
    Except.error ("There are not unique permutations for " ++ toString permutations)
  else
    let computed := (uniqPermuteRelabelings dm.n sel).map
      (fun k => permDelta dm.entry group_1 group_2 statistic (fun i => k.getD i 0))
    let delta_rand := (computed ++ List.replicate permutations 0).take permutations
    let grp1 := group_dist_agg dm.entry group_1 statistic
    let grp2 := group_dist_agg dm.entry group_2 statistic
    let delta := grp2 - grp1
    let p := ((delta_rand.countP (fun d => decide (delta < d)) : ℚ)) / ((permutations : ℚ) + 1)
    Except.ok (p, delta, delta_rand)

example : lexPerms [0, 1, 2] =
    [[0, 1, 2], [0, 2, 1], [1, 0, 2], [1, 2, 0], [2, 0, 1], [2, 1, 0]] := by decide

example : uniqPermuteRelabelings 3 [2, 4] = [[1, 0, 2], [2, 0, 1]] := by decide

/-! ### `src/recipes/cooccur.py` -/

/-- `overlap(a, b, cutoff, psudo)` from `src/recipes/cooccur.py` (lines
20-28): threshold both vectors at `cutoff`, reject a feature that is present
in all samples or absent from all samples, and return the smoothed
intersection-over-union ratio. -/
def overlap (a b : List ℚ) (cutoff psudo : ℚ) : Except String ℚ :=
  let ta := a.map (fun x => decide (cutoff < x))
  let tb := b.map (fun x => decide (cutoff < x))
  if ta.all id || tb.all id || !ta.any id || !tb.any id then
    Except.error "one features is absent or present in all samples!"
  else
    let intersect := ((ta.zip tb).countP (fun pr => pr.1 && pr.2) : ℚ)
    let uni := ((min (ta.countP id) (tb.countP id) : Nat) : ℚ)
    Except.ok ((intersect + psudo) / (uni + psudo))

/-- `cooccur(a, b, cutoff, psudo, n, negate)` from `src/recipes/cooccur.py`
(lines 3-17), with `np.random.permutation(b)` abstracted: `shuffles i` is the
shuffled copy of `b` drawn at iteration `i`. -/
def cooccur (a b : List ℚ) (cutoff psudo : ℚ) (n : Nat)
    (shuffles : Nat → List ℚ) (negate : Bool) : Except String (ℚ × ℚ × List ℚ) := do
  let real ← overlap a b cutoff psudo
  let dist ← (List.range n).mapM (fun i => overlap a (shuffles i) cutoff psudo)
  let (dist, real) := if negate then (dist.map (fun d => 1 - d), 1 - real) else (dist, real)
  let pval := ((dist.countP (fun d => decide (real < d)) : ℚ)) / (n : ℚ)
  Except.ok (real, pval, dist)

/-! ### `src/recipes/ngs.py` -/

/-- The sort key closure returned by `sort_by_pattern(patterns)`
(`src/recipes/ngs.py`, lines 191-218).  A pattern is modelled by its match
function (`re.search(p, s)` truthiness).  `l` collects the indices of the
patterns matching `s`; more than one match raises `ValueError` and no match
makes `l[0]` raise `IndexError`. -/
def sort_key (patterns : List (String → Bool)) (s : String) : Except String Nat :=
  let l := (patterns.enum.filter (fun pr => pr.2 s)).map Prod.fst
  if l.length > 1 then Except.error "ValueError"
  else
    match l with
    | [] => Except.error "IndexError: list index out of range"
    | i :: _ => Except.ok i

/-- `samples[sid].append(f)` on the insertion-ordered `defaultdict(list)` of
`create_sample_table`. -/
def addSample (samples : List (String × List String)) (sid f : String) :
    List (String × List String) :=
  match samples with
  | [] => [(sid, [f])]
  | (s, fs) :: rest =>
    if s = sid then (s, fs ++ [f]) :: rest else (s, fs) :: addSample rest sid f

/-- `files.sort(key=sorting)`: CPython first applies the key to every element
(raising if any application raises), then sorts by the keys. -/
def sortByKey (key : String → Except String Nat) (files : List String) :
    Except String (List String) := do
  let decorated ← files.mapM (fun f => (key f).map (fun k => (k, f)))
  pure ((decorated.mergeSort (fun x y => decide (x.1 ≤ y.1))).map Prod.snd)

/-- `create_sample_table` from `src/recipes/ngs.py` (lines 123-188).  The
directory is modelled by its listing, `get_id` returns `none` where the Python
callable raises, patterns are modelled by their match functions, and the
result is the insertion-ordered sample-to-sorted-files table that
`pd.DataFrame.from_dict` is built from (the `logger.warning` branch has no
effect on the result and the final relabelling of columns is not modelled). -/
def create_sample_table (listing : List String) (file_types : List String)
    (pattern_types : List (String → Bool)) (get_id : String → Option String)
    (select : String → Bool) (negate : Bool) :
    Except String (List (String × List String)) :=
  if file_types.length ≠ pattern_types.length then
    Except.error "You need to provide a pattern for each file type."
  else do
    let samples ← listing.foldlM (fun acc f =>
      let flag := if negate then !select f else select f
      if flag then
        match get_id f with
        | none => Except.error ("Can not extract sample ID from file name: " ++ f)
        | some sid => Except.ok (addSample acc sid f)
      else Except.ok acc) ([] : List (String × List String))
    samples.mapM (fun pr => do
      let sorted ← sortByKey (sort_key pattern_types) pr.2
      pure (pr.1, sorted))

/-- The validity condition of `overlap`, in the spec's vocabulary: after
thresholding at the cutoff, one of the two vectors is True at every position
or False at every position. -/
def overlap_invalid (a b : List ℚ) (cutoff : ℚ) : Prop :=
  (∀ x ∈ a, cutoff < x) ∨ (∀ x ∈ b, cutoff < x) ∨
    (∀ x ∈ a, ¬ cutoff < x) ∨ (∀ x ∈ b, ¬ cutoff < x)

/-! ### State-passing embedding of the permutation tests

For the frame/purity claim the mutable arrays of `distance_permute_test` and
`distance_uniq_permute_test` are made explicit: the state carries the borrowed
inputs `distance`, `group_1`, `group_2` and the scratch array `delta_rand`;
each loop iteration is a state update (`delta_rand[k] = ...` is `List.set`),
and the function returns its result together with the final state. -/

structure PermTestState where
  distance : SquareMat
  group_1 : List (Nat × Nat)
  group_2 : List (Nat × Nat)
  delta_rand : List ℚ

/-- One iteration of either test loop: store the permuted difference for the
relabelling `pr.2` into slot `pr.1` of `delta_rand`.  Only `delta_rand` is
written; `distance`, `group_1`, `group_2` are read. -/
def loop_step (statistic : Statistic) (pr : Nat × (Nat → Nat)) (st : PermTestState) :
    PermTestState :=
  let v := permDelta st.distance.entry st.group_1 st.group_2 statistic pr.2
  { st with delta_rand := st.delta_rand.set pr.1 v }

/-- Run the loop over the relabellings, numbering the slots from 0. -/
def fill_delta_rand (statistic : Statistic) (relabels : List (Nat → Nat))
    (st : PermTestState) : PermTestState :=
  relabels.enum.foldl (fun s pr => loop_step statistic pr s) st

/-- `distance_permute_test` with the array state threaded explicitly.  The
result triple is the first component; the second is the state of the arrays
after the call. -/
def distance_permute_test_state (st : PermTestState) (two_sided : Bool)
    (statistic : Statistic) (permutations : Nat) (rand : Nat → Nat → Nat) :
    (ℚ × ℚ × List ℚ) × PermTestState :=
  let grp1 := group_dist_agg st.distance.entry st.group_1 statistic
  let grp2 := group_dist_agg st.distance.entry st.group_2 statistic
  let delta := grp2 - grp1
  let st1 := fill_delta_rand statistic ((List.range permutations).map rand)
    { st with delta_rand := List.replicate permutations 0 }
  let p :=
    if two_sided then
      ((st1.delta_rand.countP (fun d => decide (|delta| < |d|)) : ℚ)) / ((permutations : ℚ) + 1)
    else
      ((st1.delta_rand.countP (fun d => decide (delta < d)) : ℚ)) / ((permutations : ℚ) + 1)
  ((p, delta, st1.delta_rand), st1)

/-- `distance_uniq_permute_test` with the array state threaded explicitly.
On the `ValueError` branch the state is returned untouched. -/
def distance_uniq_permute_test_state (st : PermTestState) (statistic : Statistic)
    (permutations : Nat) (sel : List Nat) :
    Except String (ℚ × ℚ × List ℚ) × PermTestState :=
  let counts := Nat.factorial st.distance.n
  if permutations > counts - 1 then
    (Except.error ("There are not unique permutations for " ++ toString permutations), st)
  else
    let relabels := (uniqPermuteRelabelings st.distance.n sel).map
      (fun k => fun i => k.getD i 0)
    let st1 := fill_delta_rand statistic relabels
      { st with delta_rand := List.replicate permutations 0 }
    let grp1 := group_dist_agg st1.distance.entry st1.group_1 statistic
    let grp2 := group_dist_agg st1.distance.entry st1.group_2 statistic
    let delta := grp2 - grp1
    let p := ((st1.delta_rand.countP (fun d => decide (delta < d)) : ℚ)) /
      ((permutations : ℚ) + 1)
    (Except.ok (p, delta, st1.delta_rand), st1)

/-! ### Helper lemmas: the lexicographic permutation enumeration -/

theorem lexPermsAux_mem_perm : ∀ (fuel : Nat) (l : List Nat) (p : List Nat),
    fuel = l.length → p ∈ lexPermsAux fuel l → p.Perm l := by
  intro fuel
  induction fuel with
  | zero =>
    intro l p hl hp
    have hnil : l = [] := List.length_eq_zero.mp hl.symm
    subst hnil
    simp only [lexPermsAux, List.mem_singleton] at hp
    subst hp
    exact List.Perm.refl _
  | succ n ih =>
    intro l p hl hp
    simp only [lexPermsAux, List.mem_flatMap, List.mem_map] at hp
    obtain ⟨x, hx, q, hq, rfl⟩ := hp
    have hlen : n = (l.erase x).length := by
      rw [List.length_erase_of_mem hx]
      omega
    exact ((ih (l.erase x) q hlen hq).cons x).trans (List.perm_cons_erase hx).symm

theorem lexPermsAux_nodup : ∀ (fuel : Nat) (l : List Nat), fuel = l.length → l.Nodup →
    (lexPermsAux fuel l).Nodup := by
  intro fuel
  induction fuel with
  | zero =>
    intro l _ _
    simp [lexPermsAux]
  | succ n ih =>
    intro l hl hnd
    simp only [lexPermsAux]
    refine List.nodup_flatMap.mpr ⟨?_, ?_⟩
    · intro x hx
      refine List.Nodup.map ?_ ?_
      · intro q r h
        injection h
      · refine ih (l.erase x) ?_ (hnd.erase x)
        rw [List.length_erase_of_mem hx]
        omega
    · refine hnd.imp ?_
      intro a b hab
      intro p hpa hpb
      simp only [List.mem_map] at hpa hpb
      obtain ⟨qa, _, rfl⟩ := hpa
      obtain ⟨qb, _, hqb⟩ := hpb
      exact hab (by injection hqb.symm)

theorem lexPermsAux_length : ∀ (fuel : Nat) (l : List Nat), fuel = l.length →
    (lexPermsAux fuel l).length = Nat.factorial fuel := by
  intro fuel
  induction fuel with
  | zero =>
    intro l _
    simp [lexPermsAux, Nat.factorial]
  | succ n ih =>
    intro l hl
    simp only [lexPermsAux, List.length_flatMap]
    have hmap : ∀ x ∈ l,
        ((lexPermsAux n (l.erase x)).map (fun q => x :: q)).length = Nat.factorial n := by
      intro x hx
      rw [List.length_map]
      refine ih (l.erase x) ?_
      rw [List.length_erase_of_mem hx]
      omega
    calc (l.map (fun x => ((lexPermsAux n (l.erase x)).map (fun q => x :: q)).length)).sum
        = (l.map (fun _ => Nat.factorial n)).sum := by
          exact congrArg List.sum (List.map_congr_left hmap)
      _ = l.length * Nat.factorial n := by
          simp [List.map_const', List.sum_replicate, smul_eq_mul]
      _ = Nat.factorial (n + 1) := by
          rw [← hl, Nat.factorial_succ]

theorem lexPermsAux_cons : ∀ (fuel : Nat) (l : List Nat), fuel = l.length →
    ∃ rest, lexPermsAux fuel l = l :: rest := by
  intro fuel
  induction fuel with
  | zero =>
    intro l hl
    have hnil : l = [] := List.length_eq_zero.mp hl.symm
    subst hnil
    exact ⟨[], rfl⟩
  | succ n ih =>
    intro l hl
    match l, hl with
    | h :: t, hl =>
      obtain ⟨rest, hrest⟩ := ih t (by simpa using hl)
      refine ⟨rest.map (fun q => h :: q) ++
        t.flatMap (fun x => (lexPermsAux n ((h :: t).erase x)).map (fun q => x :: q)), ?_⟩
      simp only [lexPermsAux, List.flatMap_cons, List.erase_cons_head, hrest, List.map_cons,
        List.cons_append]

theorem lexPerms_range_nodup (n : Nat) : (lexPerms (List.range n)).Nodup :=
  lexPermsAux_nodup _ _ (by simp [List.length_range]) (List.nodup_range n)

theorem lexPerms_range_length (n : Nat) :
    (lexPerms (List.range n)).length = Nat.factorial n := by
  have := lexPermsAux_length (List.range n).length (List.range n) rfl
  simpa [lexPerms, List.length_range] using this

theorem list_range_toFinset (N : Nat) : (List.range N).toFinset = Finset.range N := by
  ext i
  simp

/-- Counting the enumeration indices that land in a duplicate-free set of
shifted indices: there are exactly as many as the set has elements. -/
theorem countP_shift_mem (s : List Nat) (L : Nat) (hnd : s.Nodup)
    (hmem : ∀ x ∈ s, 1 ≤ x ∧ x ≤ L) :
    (List.range L).countP (fun i => decide ((i + 1) ∈ s)) = s.length := by
  rw [List.countP_eq_length_filter]
  have hfn : ((List.range L).filter (fun i => decide ((i + 1) ∈ s))).Nodup :=
    (List.nodup_range L).filter _
  rw [← List.toFinset_card_of_nodup hfn, List.toFinset_filter, list_range_toFinset]
  have himg : Finset.filter (fun i => decide ((i + 1) ∈ s) = true) (Finset.range L) =
      Finset.image (fun x => x - 1) s.toFinset := by
    ext i
    simp only [Finset.mem_filter, Finset.mem_range, Finset.mem_image, List.mem_toFinset,
      decide_eq_true_eq]
    constructor
    · rintro ⟨hiL, him⟩
      exact ⟨i + 1, him, by omega⟩
    · rintro ⟨x, hx, hxi⟩
      obtain ⟨hx1, hxL⟩ := hmem x hx
      have hxe : x = i + 1 := by omega
      exact ⟨by omega, by rwa [← hxe]⟩
  rw [himg, Finset.card_image_of_injOn, List.toFinset_card_of_nodup hnd]
  intro x hx y hy hxy
  simp only [Finset.coe_insert, Set.mem_insert_iff, Finset.mem_coe, List.mem_toFinset] at hx hy
  have hxy2 : x - 1 = y - 1 := hxy
  obtain ⟨hx1, _⟩ := hmem x hx
  obtain ⟨hy1, _⟩ := hmem y hy
  omega

theorem uniqPermuteRelabelings_sublist (n : Nat) (s : List Nat) :
    (uniqPermuteRelabelings n s).Sublist ((lexPerms (List.range n)).drop 1) := by
  have h1 := (List.filter_sublist (p := fun pr => decide ((pr.1 + 1) ∈ s))
    (((lexPerms (List.range n)).drop 1).enum)).map Prod.snd
  rwa [List.enum_map_snd] at h1

theorem uniqPermuteRelabelings_length (n : Nat) (s : List Nat) (hnd : s.Nodup)
    (hmem : ∀ x ∈ s, 1 ≤ x ∧ x ≤ Nat.factorial n - 1) :
    (uniqPermuteRelabelings n s).length = s.length := by
  have hX : ((lexPerms (List.range n)).drop 1).length = Nat.factorial n - 1 := by
    rw [List.length_drop, lexPerms_range_length]
  calc (uniqPermuteRelabelings n s).length
      = (((lexPerms (List.range n)).drop 1).enum.filter
          (fun pr => decide ((pr.1 + 1) ∈ s))).length := by
        rw [uniqPermuteRelabelings, List.length_map]
    _ = ((lexPerms (List.range n)).drop 1).enum.countP
          (fun pr => decide ((pr.1 + 1) ∈ s)) := by
        rw [List.countP_eq_length_filter]
    _ = (((lexPerms (List.range n)).drop 1).enum.map Prod.fst).countP
          (fun i => decide ((i + 1) ∈ s)) := by
        rw [List.countP_map]
        rfl
    _ = (List.range (Nat.factorial n - 1)).countP (fun i => decide ((i + 1) ∈ s)) := by
        rw [List.enum_map_fst, hX]
    _ = s.length := countP_shift_mem s _ hnd (by simpa using hmem)

/-! ### Helper lemmas: the state-passing loop -/

theorem foldl_loop_step_frame (statistic : Statistic) :
    ∀ (pairs : List (Nat × (Nat → Nat))) (st : PermTestState),
      ((pairs.foldl (fun s pr => loop_step statistic pr s) st).distance = st.distance ∧
       (pairs.foldl (fun s pr => loop_step statistic pr s) st).group_1 = st.group_1 ∧
       (pairs.foldl (fun s pr => loop_step statistic pr s) st).group_2 = st.group_2) := by
  intro pairs
  induction pairs with
  | nil => intro st; exact ⟨rfl, rfl, rfl⟩
  | cons pr t ih =>
    intro st
    simpa [List.foldl_cons, loop_step] using ih (loop_step statistic pr st)

theorem fill_delta_rand_frame (statistic : Statistic) (relabels : List (Nat → Nat))
    (st : PermTestState) :
    (fill_delta_rand statistic relabels st).distance = st.distance ∧
    (fill_delta_rand statistic relabels st).group_1 = st.group_1 ∧
    (fill_delta_rand statistic relabels st).group_2 = st.group_2 :=
  foldl_loop_step_frame statistic relabels.enum st

theorem foldl_loop_step_delta_rand (statistic : Statistic) :
    ∀ (pairs : List (Nat × (Nat → Nat))) (st : PermTestState),
      (pairs.foldl (fun s pr => loop_step statistic pr s) st).delta_rand =
        pairs.foldl
          (fun dr pr => dr.set pr.1
            (permDelta st.distance.entry st.group_1 st.group_2 statistic pr.2))
          st.delta_rand := by
  intro pairs
  induction pairs with
  | nil => intro st; rfl
  | cons pr t ih =>
    intro st
    simpa [List.foldl_cons, loop_step] using ih (loop_step statistic pr st)

theorem fill_delta_rand_spec (statistic : Statistic) (relabels : List (Nat → Nat))
    (st : PermTestState) :
    (fill_delta_rand statistic relabels st).delta_rand =
      relabels.enum.foldl
        (fun dr pr => dr.set pr.1
          (permDelta st.distance.entry st.group_1 st.group_2 statistic pr.2))
        st.delta_rand :=
  foldl_loop_step_delta_rand statistic relabels.enum st

/-! ### Claim theorems -/

/-- C1: `distance_permute_test` returns as p-value the count of permuted
differences strictly greater than the observed difference `delta`, divided by
`permutations + 1`, in the one-sided case, and the count of permuted
differences whose absolute value strictly exceeds `|delta|`, divided by
`permutations + 1`, in the two-sided case, where `delta` is
`group_dist_agg(distance, group_2, statistic) -
group_dist_agg(distance, group_1, statistic)`. -/
theorem distance_permute_test_pvalue (dm : SquareMat) (group_1 group_2 : List (Nat × Nat))
    (two_sided : Bool) (statistic : Statistic) (m : Nat) (rand : Nat → Nat → Nat)
    (p delta : ℚ) (delta_rand : List ℚ)
    (h : distance_permute_test dm group_1 group_2 two_sided statistic m rand =
      (p, delta, delta_rand)) :
    delta = group_dist_agg dm.entry group_2 statistic -
        group_dist_agg dm.entry group_1 statistic ∧
    p = (if two_sided then
          ((delta_rand.countP (fun d => decide (|delta| < |d|)) : ℚ)) / ((m : ℚ) + 1)
        else
          ((delta_rand.countP (fun d => decide (delta < d)) : ℚ)) / ((m : ℚ) + 1)) := by
  have hp : p = (distance_permute_test dm group_1 group_2 two_sided statistic m rand).1 := by
    rw [h]
  have hd : delta =
      (distance_permute_test dm group_1 group_2 two_sided statistic m rand).2.1 := by
    rw [h]
  have hdr : delta_rand =
      (distance_permute_test dm group_1 group_2 two_sided statistic m rand).2.2 := by
    rw [h]
  subst hp hd hdr
  exact ⟨rfl, rfl⟩

/-- C1 witness: the theorem applied at a concrete 3-by-3 matrix. -/
theorem distance_permute_test_pvalue_witness :
    ((1 : ℚ) / 2 : ℚ) = (1 : ℚ) / 2 ∧
    (distance_permute_test ⟨3, fun i j => if i = j then 0 else 1⟩ [(0, 1)] [(1, 2)]
      false Statistic.mean 1 (fun _ i => i)).2.1 =
      group_dist_agg (fun i j => if i = j then (0 : ℚ) else 1) [(1, 2)] Statistic.mean -
        group_dist_agg (fun i j => if i = j then (0 : ℚ) else 1) [(0, 1)] Statistic.mean := by
  refine ⟨rfl, ?_⟩
  exact (distance_permute_test_pvalue ⟨3, fun i j => if i = j then 0 else 1⟩
    [(0, 1)] [(1, 2)] false Statistic.mean 1 (fun _ i => i) _ _ _ rfl).1

/-- C2: the index relabellings used by `distance_uniq_permute_test` to fill
`delta_rand` are pairwise distinct permutations of the `n` indices: for every
duplicate-free list of sampled permutation indices in `[1, n! - 1]` of length
`m`, the selected relabellings are `m` in number, duplicate-free, and each is a
permutation of `range n`. -/
theorem distance_uniq_permute_test_sampling (n : Nat) (sel : List Nat) (m : Nat)
    (hnd : sel.Nodup) (hlen : sel.length = m)
    (hmem : ∀ x ∈ sel, 1 ≤ x ∧ x ≤ Nat.factorial n - 1) :
    (uniqPermuteRelabelings n sel).Nodup ∧
    (uniqPermuteRelabelings n sel).length = m ∧
    ∀ q ∈ uniqPermuteRelabelings n sel, q.Perm (List.range n) := by
  refine ⟨?_, ?_, ?_⟩
  · exact List.Nodup.sublist (uniqPermuteRelabelings_sublist n sel)
      (List.Nodup.sublist (List.drop_sublist 1 _) (lexPerms_range_nodup n))
  · rw [uniqPermuteRelabelings_length n sel hnd hmem, hlen]
  · intro q hq
    have hmem2 : q ∈ lexPerms (List.range n) :=
      (List.drop_sublist 1 _).subset ((uniqPermuteRelabelings_sublist n sel).subset hq)
    exact lexPermsAux_mem_perm (List.range n).length (List.range n) q rfl hmem2

/-- C2 witness: the theorem applied at `n = 3`, sampled indices `[1, 2, 5]`. -/
theorem distance_uniq_permute_test_sampling_witness :
    (uniqPermuteRelabelings 3 [1, 2, 5]).Nodup ∧
    (uniqPermuteRelabelings 3 [1, 2, 5]).length = 3 ∧
    ∀ q ∈ uniqPermuteRelabelings 3 [1, 2, 5], q.Perm (List.range 3) :=
  distance_uniq_permute_test_sampling 3 [1, 2, 5] 3 (by decide) (by decide) (by decide)

/-- C3: `distance_uniq_permute_test` raises `ValueError` exactly when the
requested number of permutations exceeds `n! - 1`; the factorial-bound check
passes (and the function returns a value) whenever `permutations ≤ n! - 1`. -/
theorem distance_uniq_permute_test_factorial_bound (dm : SquareMat)
    (group_1 group_2 : List (Nat × Nat)) (statistic : Statistic)
    (permutations : Nat) (sel : List Nat) :
    (∃ e, distance_uniq_permute_test dm group_1 group_2 statistic permutations sel =
      Except.error e) ↔ Nat.factorial dm.n - 1 < permutations := by
  constructor
  · rintro ⟨e, he⟩
    by_contra hle
    simp only [distance_uniq_permute_test] at he
    rw [if_neg (by omega)] at he
    exact absurd he (by simp)
  · intro hgt
    refine ⟨"There are not unique permutations for " ++ toString permutations, ?_⟩
    simp only [distance_uniq_permute_test]
    rw [if_pos hgt]

/-- C4: `group_dist_agg` with statistic `'mean'` returns the arithmetic mean
of the matrix entries over the listed pairs, with `'median'` their
`np.median`, and with a callable returns the callable applied to the array of
those entries. -/
theorem group_dist_agg_statistics (entry : Nat → Nat → ℚ) (pairs : List (Nat × Nat))
    (f : List ℚ → ℚ) :
    group_dist_agg entry pairs Statistic.mean =
      (pairs.map (fun pr => entry pr.1 pr.2)).sum / ((pairs.length : ℚ)) ∧
    group_dist_agg entry pairs Statistic.median =
      npMedian (pairs.map (fun pr => entry pr.1 pr.2)) ∧
    group_dist_agg entry pairs (Statistic.custom f) =
      f (pairs.map (fun pr => entry pr.1 pr.2)) := by
  refine ⟨?_, rfl, rfl⟩
  simp [group_dist_agg]

/-- C9: the identity relabelling is never among the permutations sampled by
`distance_uniq_permute_test`: the iterator discards the identity before
matching, so every selected relabelling differs from `range n`, whatever the
drawn index set is. -/
theorem distance_uniq_permute_test_no_identity (n : Nat) (perm_set : List Nat)
    (q : List Nat) (hq : q ∈ uniqPermuteRelabelings n perm_set) :
    q ≠ List.range n := by
  have hmem : q ∈ (lexPerms (List.range n)).drop 1 :=
    (uniqPermuteRelabelings_sublist n perm_set).subset hq
  obtain ⟨rest, hrest⟩ := lexPermsAux_cons (List.range n).length (List.range n) rfl
  have hnd := lexPerms_range_nodup n
  rw [show lexPerms (List.range n) =
    lexPermsAux (List.range n).length (List.range n) from rfl] at hmem hnd
  rw [hrest] at hmem hnd
  simp only [List.drop_succ_cons, List.drop_zero] at hmem
  intro hcontr
  subst hcontr
  exact (List.nodup_cons.mp hnd).1 hmem

/-- C9 witness: the theorem applied at `n = 3`, sampled indices `[2, 4]`. -/
theorem distance_uniq_permute_test_no_identity_witness :
    ([1, 0, 2] : List Nat) ≠ List.range 3 :=
  distance_uniq_permute_test_no_identity 3 [2, 4] [1, 0, 2] (by decide)

theorem overlap_cond_iff (a b : List ℚ) (cutoff : ℚ) :
    (((a.map (fun x => decide (cutoff < x))).all id ||
      (b.map (fun x => decide (cutoff < x))).all id ||
      !(a.map (fun x => decide (cutoff < x))).any id ||
      !(b.map (fun x => decide (cutoff < x))).any id) = true) ↔
      overlap_invalid a b cutoff := by
  have hall : ∀ v : List ℚ,
      (((v.map (fun x => decide (cutoff < x))).all id) = true) ↔ ∀ x ∈ v, cutoff < x := by
    intro v
    simp
  have hany : ∀ v : List ℚ,
      ((!(v.map (fun x => decide (cutoff < x))).any id) = true) ↔ ∀ x ∈ v, ¬ cutoff < x := by
    intro v
    simp
  simp only [Bool.or_eq_true, hall, hany, overlap_invalid]
  tauto

/-- C5: `overlap` raises `ValueError` exactly when, after thresholding at the
cutoff, one of the two vectors is True everywhere or False everywhere; on such
input `cooccur` raises as well, before any permuted iteration is performed
(the error does not depend on the shuffles, the iteration count or the
`negate` flag). -/
theorem overlap_raises_iff (a b : List ℚ) (cutoff psudo : ℚ) :
    ((∃ e, overlap a b cutoff psudo = Except.error e) ↔ overlap_invalid a b cutoff) ∧
    (overlap_invalid a b cutoff →
      ∀ (n : Nat) (shuffles : Nat → List ℚ) (negate : Bool),
        ∃ e, cooccur a b cutoff psudo n shuffles negate = Except.error e) := by
  have hiff : (∃ e, overlap a b cutoff psudo = Except.error e) ↔
      overlap_invalid a b cutoff := by
    rw [← overlap_cond_iff a b cutoff]
    simp only [overlap]
    by_cases hc : ((a.map (fun x => decide (cutoff < x))).all id ||
        (b.map (fun x => decide (cutoff < x))).all id ||
        !(a.map (fun x => decide (cutoff < x))).any id ||
        !(b.map (fun x => decide (cutoff < x))).any id) = true
    · rw [if_pos hc]
      exact iff_of_true ⟨_, rfl⟩ hc
    · rw [if_neg hc]
      simp [hc]
  refine ⟨hiff, ?_⟩
  intro hinv n shuffles negate
  obtain ⟨e, he⟩ := hiff.mpr hinv
  refine ⟨e, ?_⟩
  simp only [cooccur, bind, Except.bind, he]

/-- C5 witness: a vector present in every sample makes `overlap` and
`cooccur` raise, for a concrete shuffle stream. -/
theorem overlap_raises_iff_witness :
    ∃ e, cooccur [1, 1] [0, 1] 0 1 2 (fun _ => [0, 1]) false = Except.error e :=
  (overlap_raises_iff [1, 1] [0, 1] 0 1).2 (Or.inl (by decide)) 2 (fun _ => [0, 1]) false

/-- C10: for vectors of equal length that pass the validity check and any
positive pseudocount, the ratio returned by `overlap` lies in `(0, 1]`. -/
theorem overlap_ratio_bounds (a b : List ℚ) (cutoff psudo r : ℚ)
    (hlen : a.length = b.length) (hpos : 0 < psudo)
    (h : overlap a b cutoff psudo = Except.ok r) :
    0 < r ∧ r ≤ 1 := by
  simp only [overlap] at h
  split at h
  · exact absurd h (by simp)
  · simp only [Except.ok.injEq] at h
    subst h
    set ta := a.map (fun x => decide (cutoff < x)) with hta
    set tb := b.map (fun x => decide (cutoff < x)) with htb
    have hlen2 : ta.length = tb.length := by
      simp [hta, htb, hlen]
    have hle : (ta.zip tb).countP (fun pr => pr.1 && pr.2) ≤
        min (ta.countP id) (tb.countP id) := by
      refine le_min ?_ ?_
      · have h1 : (ta.zip tb).countP (fun pr => pr.1 && pr.2) ≤
            (ta.zip tb).countP (fun pr => pr.1) := by
          refine List.countP_mono_left ?_
          intro x _ hx
          exact Bool.and_elim_left hx
        have h2 : ((ta.zip tb).map Prod.fst).countP id =
            (ta.zip tb).countP (fun pr => pr.1) := List.countP_map id Prod.fst _
        rw [List.map_fst_zip ta tb (le_of_eq hlen2)] at h2
        omega
      · have h1 : (ta.zip tb).countP (fun pr => pr.1 && pr.2) ≤
            (ta.zip tb).countP (fun pr => pr.2) := by
          refine List.countP_mono_left ?_
          intro x _ hx
          exact Bool.and_elim_right hx
        have h2 : ((ta.zip tb).map Prod.snd).countP id =
            (ta.zip tb).countP (fun pr => pr.2) := List.countP_map id Prod.snd _
        rw [List.map_snd_zip ta tb (le_of_eq hlen2.symm)] at h2
        omega
    have hnum : (0 : ℚ) <
        ((ta.zip tb).countP (fun pr => pr.1 && pr.2) : ℚ) + psudo :=
      add_pos_of_nonneg_of_pos (Nat.cast_nonneg _) hpos
    have hden : (0 : ℚ) < ((min (ta.countP id) (tb.countP id) : Nat) : ℚ) + psudo :=
      add_pos_of_nonneg_of_pos (Nat.cast_nonneg _) hpos
    constructor
    · exact div_pos hnum hden
    · rw [div_le_one hden]
      have : (((ta.zip tb).countP (fun pr => pr.1 && pr.2) : Nat) : ℚ) ≤
          ((min (ta.countP id) (tb.countP id) : Nat) : ℚ) := by
        exact_mod_cast hle
      linarith

/-- C10 witness: the theorem applied at the vectors `[1, 0]`, `[1, 0]` with
cutoff 0 and pseudocount 1, where the ratio is exactly 1. -/
theorem overlap_ratio_bounds_witness : (0 : ℚ) < 1 ∧ (1 : ℚ) ≤ 1 :=
  overlap_ratio_bounds [1, 0] [1, 0] 0 1 1 (by decide) (by norm_num)
    (by simp only [overlap]; norm_num)

/-- C6: `create_sample_table` raises `ValueError` whenever the file-type list
and the pattern list have different lengths, whatever the directory listing is
(so before reading any directory entry), and the sort key produced by
`sort_by_pattern` raises `ValueError` when a file name matches more than one
pattern. -/
theorem create_sample_table_errors (file_types : List String)
    (pattern_types : List (String → Bool)) :
    (file_types.length ≠ pattern_types.length →
      ∀ (listing : List String) (get_id : String → Option String)
        (select : String → Bool) (negate : Bool),
        create_sample_table listing file_types pattern_types get_id select negate =
          Except.error "You need to provide a pattern for each file type.") ∧
    (∀ s : String, 1 < pattern_types.countP (fun p => p s) →
      sort_key pattern_types s = Except.error "ValueError") := by
  constructor
  · intro h listing get_id select negate
    simp only [create_sample_table]
    rw [if_pos h]
  · intro s hs
    have hlen : ((pattern_types.enum.filter (fun pr => pr.2 s)).map Prod.fst).length =
        pattern_types.countP (fun p => p s) := by
      rw [List.length_map, ← List.countP_eq_length_filter]
      have h2 := List.countP_map (fun p : String → Bool => p s) Prod.snd pattern_types.enum
      rw [List.enum_map_snd] at h2
      exact h2.symm
    simp only [sort_key]
    rw [if_pos (by rw [hlen]; exact hs)]

/-- C6 witness: the theorem applied to a concrete mismatched pair of lists and
to a file name matching two patterns. -/
theorem create_sample_table_errors_witness :
    create_sample_table [] ["r1"] [] (fun _ => none) (fun _ => true) false =
      Except.error "You need to provide a pattern for each file type." ∧
    sort_key [fun _ => true, fun _ => true] "x" = Except.error "ValueError" :=
  ⟨(create_sample_table_errors ["r1"] []).1 (by decide) [] (fun _ => none)
      (fun _ => true) false,
    (create_sample_table_errors [] [fun _ => true, fun _ => true]).2 "x" (by decide)⟩

/-- C7: both permutation tests are pure with respect to their inputs: the
distance matrix and the two pair lists are unchanged in the state after the
call, and the result triples depend only on those inputs and the parameters
(two states agreeing on `distance`, `group_1`, `group_2` — whatever is in
their scratch array — give equal results for the same random stream). -/
theorem permute_tests_frame_and_deterministic (s0 s1 : PermTestState)
    (two_sided : Bool) (statistic : Statistic) (m m2 : Nat)
    (rand : Nat → Nat → Nat) (sel : List Nat)
    (hd : s1.distance = s0.distance) (h1 : s1.group_1 = s0.group_1)
    (h2 : s1.group_2 = s0.group_2) :
    ((distance_permute_test_state s0 two_sided statistic m rand).2.distance = s0.distance ∧
     (distance_permute_test_state s0 two_sided statistic m rand).2.group_1 = s0.group_1 ∧
     (distance_permute_test_state s0 two_sided statistic m rand).2.group_2 = s0.group_2) ∧
    ((distance_uniq_permute_test_state s0 statistic m2 sel).2.distance = s0.distance ∧
     (distance_uniq_permute_test_state s0 statistic m2 sel).2.group_1 = s0.group_1 ∧
     (distance_uniq_permute_test_state s0 statistic m2 sel).2.group_2 = s0.group_2) ∧
    (distance_permute_test_state s1 two_sided statistic m rand).1 =
      (distance_permute_test_state s0 two_sided statistic m rand).1 ∧
    (distance_uniq_permute_test_state s1 statistic m2 sel).1 =
      (distance_uniq_permute_test_state s0 statistic m2 sel).1 := by
  refine ⟨?_, ?_, ?_, ?_⟩
  · simp only [distance_permute_test_state]
    exact fill_delta_rand_frame statistic _ _
  · simp only [distance_uniq_permute_test_state]
    by_cases hc : m2 > Nat.factorial s0.distance.n - 1
    · rw [if_pos hc]
      exact ⟨rfl, rfl, rfl⟩
    · rw [if_neg hc]
      exact fill_delta_rand_frame statistic _ _
  · simp only [distance_permute_test_state, fill_delta_rand_spec]
    rw [hd, h1, h2]
  · simp only [distance_uniq_permute_test_state, fill_delta_rand_spec]
    have hframe1 := fill_delta_rand_frame statistic
      ((uniqPermuteRelabelings s1.distance.n sel).map (fun k => fun i => k.getD i 0))
      { s1 with delta_rand := List.replicate m2 0 }
    have hframe0 := fill_delta_rand_frame statistic
      ((uniqPermuteRelabelings s0.distance.n sel).map (fun k => fun i => k.getD i 0))
      { s0 with delta_rand := List.replicate m2 0 }
    rw [hframe1.1, hframe1.2.1, hframe1.2.2, hframe0.1, hframe0.2.1, hframe0.2.2]
    rw [hd, h1, h2]
    split
    · rfl
    · rfl

/-- C7 witness: the theorem applied to two concrete states agreeing on the
inputs but differing in the scratch array. -/
theorem permute_tests_frame_and_deterministic_witness :
    ((distance_permute_test_state ⟨⟨2, fun _ _ => 0⟩, [(0, 1)], [(1, 0)], []⟩
        false Statistic.mean 1 (fun _ i => i)).2.distance = ⟨2, fun _ _ => 0⟩ ∧
     (distance_permute_test_state ⟨⟨2, fun _ _ => 0⟩, [(0, 1)], [(1, 0)], []⟩
        false Statistic.mean 1 (fun _ i => i)).2.group_1 = [(0, 1)] ∧
     (distance_permute_test_state ⟨⟨2, fun _ _ => 0⟩, [(0, 1)], [(1, 0)], []⟩
        false Statistic.mean 1 (fun _ i => i)).2.group_2 = [(1, 0)]) ∧
    ((distance_uniq_permute_test_state ⟨⟨2, fun _ _ => 0⟩, [(0, 1)], [(1, 0)], []⟩
        Statistic.mean 1 [1]).2.distance = ⟨2, fun _ _ => 0⟩ ∧
     (distance_uniq_permute_test_state ⟨⟨2, fun _ _ => 0⟩, [(0, 1)], [(1, 0)], []⟩
        Statistic.mean 1 [1]).2.group_1 = [(0, 1)] ∧
     (distance_uniq_permute_test_state ⟨⟨2, fun _ _ => 0⟩, [(0, 1)], [(1, 0)], []⟩
        Statistic.mean 1 [1]).2.group_2 = [(1, 0)]) ∧
    (distance_permute_test_state ⟨⟨2, fun _ _ => 0⟩, [(0, 1)], [(1, 0)], [7]⟩
        false Statistic.mean 1 (fun _ i => i)).1 =
      (distance_permute_test_state ⟨⟨2, fun _ _ => 0⟩, [(0, 1)], [(1, 0)], []⟩
        false Statistic.mean 1 (fun _ i => i)).1 ∧
    (distance_uniq_permute_test_state ⟨⟨2, fun _ _ => 0⟩, [(0, 1)], [(1, 0)], [7]⟩
        Statistic.mean 1 [1]).1 =
      (distance_uniq_permute_test_state ⟨⟨2, fun _ _ => 0⟩, [(0, 1)], [(1, 0)], []⟩
        Statistic.mean 1 [1]).1 :=
  permute_tests_frame_and_deterministic
    ⟨⟨2, fun _ _ => 0⟩, [(0, 1)], [(1, 0)], []⟩
    ⟨⟨2, fun _ _ => 0⟩, [(0, 1)], [(1, 0)], [7]⟩
    false Statistic.mean 1 1 (fun _ i => i) [1] rfl rfl rfl

theorem pval_bound_aux (c m : Nat) (hc : c ≤ m) :
    0 ≤ (c : ℚ) / ((m : ℚ) + 1) ∧ (c : ℚ) / ((m : ℚ) + 1) ≤ (m : ℚ) / ((m : ℚ) + 1) ∧
      (m : ℚ) / ((m : ℚ) + 1) < 1 := by
  have hm : (0 : ℚ) < (m : ℚ) + 1 := by positivity
  refine ⟨div_nonneg (Nat.cast_nonneg c) hm.le, ?_, ?_⟩
  · gcongr
  · rw [div_lt_one hm]
    linarith

/-- C8: the p-value returned by either permutation test lies in
`[0, m / (m + 1)]` where `m` is the number of permutations — in particular it
is strictly below 1, because a count of at most `m` exceedances is divided by
`m + 1`. -/
theorem permute_test_pvalue_bounds (dm : SquareMat) (group_1 group_2 : List (Nat × Nat))
    (two_sided : Bool) (statistic : Statistic) (m m2 : Nat) (rand : Nat → Nat → Nat)
    (sel : List Nat) (p delta : ℚ) (delta_rand : List ℚ) (p2 d2 : ℚ) (dr2 : List ℚ)
    (h1 : distance_permute_test dm group_1 group_2 two_sided statistic m rand =
      (p, delta, delta_rand))
    (h2 : distance_uniq_permute_test dm group_1 group_2 statistic m2 sel =
      Except.ok (p2, d2, dr2)) :
    (0 ≤ p ∧ p ≤ (m : ℚ) / ((m : ℚ) + 1) ∧ (m : ℚ) / ((m : ℚ) + 1) < 1) ∧
    (0 ≤ p2 ∧ p2 ≤ (m2 : ℚ) / ((m2 : ℚ) + 1) ∧ (m2 : ℚ) / ((m2 : ℚ) + 1) < 1) := by
  constructor
  · have hp : p = (distance_permute_test dm group_1 group_2 two_sided statistic m rand).1 := by
      rw [h1]
    subst hp
    have hlen : ((List.range m).map
        (fun k => permDelta dm.entry group_1 group_2 statistic (rand k))).length = m := by
      simp
    cases two_sided with
    | false =>
      refine pval_bound_aux _ m ?_
      calc List.countP _ _ ≤ _ := List.countP_le_length _
        _ = m := hlen
    | true =>
      refine pval_bound_aux _ m ?_
      calc List.countP _ _ ≤ _ := List.countP_le_length _
        _ = m := hlen
  · simp only [distance_uniq_permute_test] at h2
    by_cases hc : m2 > Nat.factorial dm.n - 1
    · rw [if_pos hc] at h2
      exact absurd h2 (by simp)
    · rw [if_neg hc] at h2
      simp only [Except.ok.injEq, Prod.mk.injEq] at h2
      obtain ⟨hp2, _, _⟩ := h2
      rw [← hp2]
      have hlen : ((((uniqPermuteRelabelings dm.n sel).map
          (fun (k : List Nat) =>
            permDelta dm.entry group_1 group_2 statistic (fun i => k.getD i 0))) ++
            List.replicate m2 0).take m2).length = m2 := by
        simp [List.length_take]
      refine pval_bound_aux _ m2 ?_
      calc List.countP _ _ ≤ _ := List.countP_le_length _
        _ = m2 := hlen

/-- C8 witness: the theorem applied at a 2-by-2 all-zero matrix, one
permutation for each test. -/
theorem permute_test_pvalue_bounds_witness :
    ((0 : ℚ) ≤ 0 ∧ (0 : ℚ) ≤ (1 : ℚ) / ((1 : ℚ) + 1) ∧ (1 : ℚ) / ((1 : ℚ) + 1) < 1) ∧
    ((0 : ℚ) ≤ 0 ∧ (0 : ℚ) ≤ (1 : ℚ) / ((1 : ℚ) + 1) ∧ (1 : ℚ) / ((1 : ℚ) + 1) < 1) := by
  have h := permute_test_pvalue_bounds ⟨2, fun _ _ => 0⟩ [(0, 1)] [(1, 0)]
    false Statistic.mean 1 1 (fun _ i => i) [1] 0 0 [0] 0 0 [0]
    (by simp only [distance_permute_test]; norm_num [permDelta, relabel, group_dist_agg])
    (by
      simp only [distance_uniq_permute_test]
      norm_num [permDelta, relabel, group_dist_agg, uniqPermuteRelabelings, lexPerms,
        lexPermsAux]
      decide)
  simpa using h
